import Mathlib

/-
  Shallow embedding of the two scripts of the DistilledJudge repository:
    - src/distill/distill_judge_with_rm.py  (preference-pair reformatter)
    - src/eval/rewardbench/__main__.py      (benchmark scorer)
  Strings are modelled as Lean strings (lists of characters), Python floats
  as rationals, machine-raised exceptions as Except values.
-/

namespace DistilledJudge

/-! ### Template stripper: remove_templates (distill_judge_with_rm.py, lines 4-6)
    Python: re.sub(r'<\|.*?\|>', '', text).strip()
    The regex has no DOTALL flag, so the lazy gap (.*?) may not cross a newline.
-/

/-- Whitespace characters removed by Python str.strip (the ASCII ones). -/
def isPyWhite (c : Char) : Bool :=
  c == ' ' || c == '\t' || c == '\n' || c == '\r' || c == Char.ofNat 11 || c == Char.ofNat 12

/-- Both-ends whitespace trim, the semantics of Python str.strip(). -/
def stripChars (cs : List Char) : List Char :=
  ((cs.dropWhile isPyWhite).reverse.dropWhile isPyWhite).reverse

/-- After an opening marker, the lazy gap of the pattern: consume characters up to the
    earliest closing bar-gt pair; a newline (dot does not match it) or the end of the
    input makes the match at this start position fail. Returns the remainder after
    the closing pair. -/
def afterCloser : List Char → Option (List Char)
  | [] => none
  | '|' :: '>' :: rest => some rest
  | '\n' :: _ => none
  | _ :: rest => afterCloser rest

/-- One left-to-right substitution pass of re.sub on the marker pattern, written with
    explicit fuel so it is structural; every step consumes at least one character, so
    fuel equal to the length of the input is always enough. -/
def removeMarkersFuel : Nat → List Char → List Char
  | 0, cs => cs
  | _ + 1, [] => []
  | fuel + 1, '<' :: '|' :: rest =>
    match afterCloser rest with
    | some rest2 => removeMarkersFuel fuel rest2
    | none => '<' :: removeMarkersFuel fuel ('|' :: rest)
  | fuel + 1, c :: rest => c :: removeMarkersFuel fuel rest

/-- All non-overlapping lazy matches of the marker pattern removed, leftmost first. -/
def removeMarkers (cs : List Char) : List Char :=
  removeMarkersFuel cs.length cs

/-- remove_templates from the source: strip the marker pattern, then trim whitespace. -/
def remove_templates (s : String) : String :=
  String.mk (stripChars (removeMarkers s.data))

/-! ### Instruction extractor (distill_judge_with_rm.py, lines 24-33)
    re.search(r'<\|start_header_id\|>user<\|end_header_id\|>\n\n(.*?)<\|eot_id\|>',
              prompt, re.DOTALL)
    The prefix and the terminator are literals, the group is lazy with DOTALL, so the
    match is: first occurrence of the header literal, group up to the first terminator
    occurrence after it. -/

/-- Does pat occur at the very front of cs? -/
def beginsWith : List Char → List Char → Bool
  | [], _ => true
  | _ :: _, [] => false
  | p :: ps, c :: cs => p == c && beginsWith ps cs

/-- Split around the first (leftmost) occurrence of pat: the part before it and the
    part after it. -/
def splitFirst (pat : List Char) : List Char → Option (List Char × List Char)
  | [] => if beginsWith pat [] then some ([], []) else none
  | c :: cs =>
    if beginsWith pat (c :: cs) then some ([], (c :: cs).drop pat.length)
    else
      match splitFirst pat cs with
      | some (pre, post) => some (c :: pre, post)
      | none => none

/-- The user-turn opening literal of the search pattern. -/
def headerPat : List Char := "<|start_header_id|>user<|end_header_id|>\n\n".data

/-- The turn-termination literal of the search pattern. -/
def eotPat : List Char := "<|eot_id|>".data

/-- The captured group of re.search on the prompt: text between the first header
    literal and the first terminator after it; none when the search fails. -/
def extract_instruction (prompt : String) : Option String :=
  match splitFirst headerPat prompt.data with
  | none => none
  | some (_, rest) =>
    match splitFirst eotPat rest with
    | none => none
    | some (mid, _) => some (String.mk mid)

/-! ### Per-record processing (distill_judge_with_rm.py, lines 24-87) -/

/-- One parsed input line: the fields of interest read with dict.get (absent keys
    modelled as none). results carries whatever integer the JSON had. -/
structure PreferenceRecord where
  prompt : Option String
  chosen : Option String
  rejected : Option String
  results : Option Int
deriving DecidableEq

/-- Lines 36-41: strip both candidate texts, then swap them when the results flag
    (default 1) equals 0. First component flows to the chosen role afterwards. -/
def correctedPair (data : PreferenceRecord) : String × String :=
  let chosen_text := remove_templates (data.chosen.getD "")
  let rejected_text := remove_templates (data.rejected.getD "")
  if data.results.getD 1 = 0 then (rejected_text, chosen_text)
  else (chosen_text, rejected_text)

/-- Lines 44-51: the toggle decides the label and which text lands in slot a / slot b.
    Returns (output_label, a_text, b_text). -/
def positioned (toggle : Bool) (chosen_text rejected_text : String) :
    String × String × String :=
  if toggle then ("Output (a)", chosen_text, rejected_text)
  else ("Output (b)", rejected_text, chosen_text)

/-- The local values computed for one valid record before assembly. -/
structure RecordParts where
  instruction : String
  a_text : String
  b_text : String
  output : String
deriving DecidableEq

/-- Lines 24-54 for a single valid record at a given toggle state. -/
def recordParts (toggle : Bool) (data : PreferenceRecord) : RecordParts :=
  let instruction :=
    match extract_instruction (data.prompt.getD "") with
    | some g => remove_templates g
    | none => ""
  let pair := correctedPair data
  let pos := positioned toggle pair.1 pair.2
  ⟨instruction, pos.2.1, pos.2.2, pos.1⟩

/-- The f-string of lines 58-78, as one interpolation-free concatenation. -/
def buildInstruction (instruction a_text b_text : String) : String :=
  "Select the Output (a) or Output (b) that is better for the given instruction. The two outputs are generated by two different AI chatbots respectively.\n\nHere are some rules of the evaluation:\n(1) You should prioritize evaluating whether the output honestly/precisely/closely executes the instruction, then consider its helpfulness, accuracy, level of detail, harmlessness, etc.\n(2) Outputs should NOT contain more/less than what the instruction asks for, as such outputs do NOT precisely execute the instruction.\n(3) You should avoid any potential bias and your judgment should be as objective as possible. For example, the order in which the outputs were presented should NOT affect your judgment, as Output (a) and Output (b) are **equally likely** to be the better.\n\nDo NOT provide any explanation for your choice.\nDo NOT say both / neither are good.\nYou should answer using ONLY \"Output (a)\" or \"Output (b)\". Do NOT output any other words.\n\n# Instruction:\n" ++ instruction ++ "\n\n# Output (a):\n" ++ a_text ++ "\n\n# Output (b):\n" ++ b_text ++ "\n\n# Which is better, Output (a) or Output (b)? Your response should be either \"Output (a)\" or \"Output (b)\":"

/-- The fixed system-role string of line 81. -/
def systemText : String :=
  "You are a helpful assistant in evaluating the quality of the outputs for a given instruction. Your goal is to select the best output for the given instruction."

/-- One output record (lines 57-83). -/
structure OutputEntry where
  instruction : String
  input : String
  system : String
  output : String
deriving DecidableEq

/-- Assemble the output dict of lines 57-83 from the per-record locals. -/
def outputEntry (p : RecordParts) : OutputEntry :=
  ⟨buildInstruction p.instruction p.a_text p.b_text, "", systemText, p.output⟩

/-- The classification the loop body of process_file makes of one raw line: blank
    after stripping (silently skipped), invalid JSON (warned and skipped), or a
    successfully decoded record. json.loads itself is the external JSON library. -/
inductive ParsedLine where
  | blank : ParsedLine
  | malformed (raw : String) : ParsedLine
  | valid (data : PreferenceRecord) : ParsedLine
deriving DecidableEq

/-- The loop of process_file (lines 13-87): carries the toggle and the 1-based line
    counter of enumerate; returns the accumulated output_data and, for each invalid
    line, the warning (line number, raw content) that is printed. -/
def processLines (toggle : Bool) (lineNumber : Nat) :
    List ParsedLine → List OutputEntry × List (Nat × String)
  | [] => ([], [])
  | ParsedLine.blank :: rest => processLines toggle (lineNumber + 1) rest
  | ParsedLine.malformed raw :: rest =>
    ((processLines toggle (lineNumber + 1) rest).1,
     (lineNumber, raw) :: (processLines toggle (lineNumber + 1) rest).2)
  | ParsedLine.valid data :: rest =>
    (outputEntry (recordParts toggle data) :: (processLines (!toggle) (lineNumber + 1) rest).1,
     (processLines (!toggle) (lineNumber + 1) rest).2)

/-- process_file (lines 8-93): toggle starts true, enumerate starts at 1. -/
def process_file (lines : List ParsedLine) : List OutputEntry × List (Nat × String) :=
  processLines true 1 lines

/-! ### Benchmark scorer (eval/rewardbench/main, lines 185-256)
    Scores are Python floats, modelled as rationals; the external reward pipeline is
    a black box, so the embedding starts from the per-batch score lists. -/

/-- Lines 206-209: one batch's correctness indicators, matched by zip order. -/
def mkResults (score_chosen_batch score_rejected_batch : List ℚ) : List Nat :=
  (score_chosen_batch.zip score_rejected_batch).map (fun p => if p.1 > p.2 then 1 else 0)

/-- Lines 185-211: the inference loop over batches, accumulating results,
    scores_chosen and scores_rejected in batch order. -/
def runBatches : List (List ℚ × List ℚ) → List Nat × List ℚ × List ℚ
  | [] => ([], [], [])
  | b :: rest =>
    (mkResults b.1 b.2 ++ (runBatches rest).1,
     b.1 ++ (runBatches rest).2.1,
     b.2 ++ (runBatches rest).2.2)

/-- Line 217: accuracy = sum(results) / len(results); Python raises
    ZeroDivisionError on an empty results list. -/
def accuracy (results : List Nat) : Except String ℚ :=
  if results.length = 0 then Except.error "ZeroDivisionError"
  else Except.ok ((results.sum : ℚ) / (results.length : ℚ))

/-- The summary JSON object written at lines 232-242. -/
structure SummaryFile where
  accuracy : ℚ
  num_prompts : Nat
  model : String
  tokenizer : String
  chat_template : Option String
deriving DecidableEq

/-- One line of the save_all jsonl file: the fields the code actually writes at
    line 256 hold whole score lists. -/
structure SaveAllLine where
  chosen : List ℚ
  rejected : List ℚ
deriving DecidableEq

/-- Lines 254-256: one line per zip pair, but each line repeats the full
    scores_chosen and scores_rejected lists (the loop variables are unused). -/
def saveAllLines (scores_chosen scores_rejected : List ℚ) : List SaveAllLine :=
  (scores_chosen.zip scores_rejected).map (fun _ => ⟨scores_chosen, scores_rejected⟩)

/-- Lines 217-256: compute the accuracy, then the files written; a ZeroDivisionError
    at line 217 aborts the run before any file is produced. -/
def compileScores (results : List Nat) (model tokenizer_path : String)
    (chat_template : Option String) (save_all : Bool)
    (scores_chosen scores_rejected : List ℚ) :
    Except String (SummaryFile × Option (List SaveAllLine)) :=
  match accuracy results with
  | Except.error e => Except.error e
  | Except.ok acc =>
    Except.ok (⟨acc, results.length, model, tokenizer_path, chat_template⟩,
      if save_all then some (saveAllLines scores_chosen scores_rejected) else none)

/-- All (chosen, rejected) score pairs of a run, in batch order: the pairs the
    inference loop compares. -/
def allPairs : List (List ℚ × List ℚ) → List (ℚ × ℚ)
  | [] => []
  | b :: rest => b.1.zip b.2 ++ allPairs rest

/-! ### Derived views of the reformatter loop, used to state its properties -/

/-- The records of the successfully parsed lines, in order. -/
def validRecords : List ParsedLine → List PreferenceRecord
  | [] => []
  | ParsedLine.valid d :: rest => d :: validRecords rest
  | _ :: rest => validRecords rest

/-- The emission of a run restricted to its valid records: one entry per record,
    toggling once per entry. -/
def emitAll (toggle : Bool) : List PreferenceRecord → List OutputEntry
  | [] => []
  | d :: rest => outputEntry (recordParts toggle d) :: emitAll (!toggle) rest

/-- The toggle state after the loop has consumed a list of lines. -/
def toggleAfter (toggle : Bool) : List ParsedLine → Bool
  | [] => toggle
  | ParsedLine.valid _ :: rest => toggleAfter (!toggle) rest
  | _ :: rest => toggleAfter toggle rest

/-! ### Concrete sample data -/

/-- A record with every key absent. -/
def emptyRec : PreferenceRecord := ⟨none, none, none, none⟩

/-- A record whose prompt holds no user-turn span. -/
def recNoSpan : PreferenceRecord := ⟨some "no markers here", some "A", some "B", none⟩

/-- A record whose prompt holds one user-turn span. -/
def recWithSpan : PreferenceRecord :=
  ⟨some "x<|start_header_id|>user<|end_header_id|>\n\nHi<|eot_id|>y",
   some "A", some "B", some 0⟩

/-! ## Properties -/

/-- The output label of a record is decided by the toggle alone. -/
theorem recordParts_output (toggle : Bool) (data : PreferenceRecord) :
    (recordParts toggle data).output = if toggle then "Output (a)" else "Output (b)" := by
  cases toggle <;> rfl

/-- Labels of the emitted records alternate, relative to the toggle the loop
    entered with; the line counter is irrelevant to them. -/
theorem processLines_label (lines : List ParsedLine) : ∀ (toggle : Bool) (n i : Nat)
    (h : i < ((processLines toggle n lines).1).length),
    (((processLines toggle n lines).1).get ⟨i, h⟩).output =
      if i % 2 = 0 then (if toggle then "Output (a)" else "Output (b)")
      else (if toggle then "Output (b)" else "Output (a)") := by
  induction lines with
  | nil => intro toggle n i h; simp [processLines] at h
  | cons l rest ih =>
    intro toggle n i h
    cases l with
    | blank => exact ih toggle (n + 1) i h
    | malformed raw => exact ih toggle (n + 1) i h
    | valid d =>
      cases i with
      | zero => simpa using recordParts_output toggle d
      | succ j =>
        have hj : j < ((processLines (!toggle) (n + 1) rest).1).length := by
          have h' := h; simp [processLines] at h'; omega
        have hrec := ih (!toggle) (n + 1) j hj
        have hget : (((processLines toggle n (ParsedLine.valid d :: rest)).1).get
            ⟨j + 1, h⟩) = ((processLines (!toggle) (n + 1) rest).1).get ⟨j, hj⟩ := rfl
        rw [hget, hrec]
        rcases Nat.mod_two_eq_zero_or_one j with hm | hm
        · have h1 : (j + 1) % 2 = 1 := by omega
          cases toggle <;> simp [hm, h1]
        · have h1 : (j + 1) % 2 = 0 := by omega
          cases toggle <;> simp [hm, h1]

/-- C1: over a whole run of the reformatter, the output labels of the emitted
    records strictly alternate, Output (a) first: the toggle starts true and is
    inverted exactly once per emitted record, so the i-th emitted record carries
    Output (a) exactly when i is even. -/
theorem output_labels_alternate (lines : List ParsedLine) (i : Nat)
    (h : i < ((process_file lines).1).length) :
    (((process_file lines).1).get ⟨i, h⟩).output =
      if i % 2 = 0 then "Output (a)" else "Output (b)" := by
  simpa using processLines_label lines true 1 i h

/-- C1 witness: two valid records yield labels Output (a) then Output (b). -/
theorem output_labels_alternate_instance :
    (((process_file [ParsedLine.valid emptyRec, ParsedLine.valid emptyRec]).1).get
        ⟨0, by decide⟩).output = "Output (a)" ∧
    (((process_file [ParsedLine.valid emptyRec, ParsedLine.valid emptyRec]).1).get
        ⟨1, by decide⟩).output = "Output (b)" := by
  refine ⟨?_, ?_⟩
  · simpa using output_labels_alternate
      [ParsedLine.valid emptyRec, ParsedLine.valid emptyRec] 0 (by decide)
  · simpa using output_labels_alternate
      [ParsedLine.valid emptyRec, ParsedLine.valid emptyRec] 1 (by decide)

/-- C2: in every emitted record, the candidate text in the slot named by the
    output field is the corrected chosen text, and the other slot holds the
    corrected rejected text. -/
theorem round_trip_labeling (toggle : Bool) (data : PreferenceRecord) :
    (if (recordParts toggle data).output = "Output (a)" then (recordParts toggle data).a_text
     else (recordParts toggle data).b_text) = (correctedPair data).1 ∧
    (if (recordParts toggle data).output = "Output (a)" then (recordParts toggle data).b_text
     else (recordParts toggle data).a_text) = (correctedPair data).2 := by
  cases toggle <;> simp [recordParts, positioned]

/-- C3: the pair corrector swaps the stripped texts exactly when the results
    field is 0; an absent field defaults to 1 and leaves the pair unchanged. -/
theorem pair_corrector_swap (data : PreferenceRecord) :
    (data.results = some 0 →
      correctedPair data =
        (remove_templates (data.rejected.getD ""), remove_templates (data.chosen.getD ""))) ∧
    (data.results = none →
      correctedPair data =
        (remove_templates (data.chosen.getD ""), remove_templates (data.rejected.getD ""))) ∧
    (∀ v : Int, data.results = some v → v ≠ 0 →
      correctedPair data =
        (remove_templates (data.chosen.getD ""), remove_templates (data.rejected.getD ""))) := by
  refine ⟨?_, ?_, ?_⟩
  · intro h; simp [correctedPair, h]
  · intro h; simp [correctedPair, h]
  · intro v h hv; simp [correctedPair, h, hv]

/-- C3 witness: a record with results 0 gets its stripped texts swapped. -/
theorem pair_corrector_swap_instance : correctedPair recWithSpan = ("B", "A") := by
  have h := (pair_corrector_swap recWithSpan).1 rfl
  rw [h]; decide

/-- C10: a valid line missing the prompt, chosen or rejected key is processed as
    if the field were the empty string, and still produces exactly one record. -/
theorem missing_fields_default_empty (toggle : Bool) (p c r : Option String)
    (res : Option Int) (rest : List ParsedLine) (n : Nat) :
    recordParts toggle ⟨none, c, r, res⟩ = recordParts toggle ⟨some "", c, r, res⟩ ∧
    recordParts toggle ⟨p, none, r, res⟩ = recordParts toggle ⟨p, some "", r, res⟩ ∧
    recordParts toggle ⟨p, c, none, res⟩ = recordParts toggle ⟨p, c, some "", res⟩ ∧
    (processLines toggle n (ParsedLine.valid ⟨none, none, none, res⟩ :: rest)).1 =
      outputEntry (recordParts toggle ⟨none, none, none, res⟩) ::
        (processLines (!toggle) (n + 1) rest).1 :=
  ⟨rfl, rfl, rfl, rfl⟩

/-- The emitted records are exactly those of the valid lines, in order. -/
theorem processLines_outputs (lines : List ParsedLine) : ∀ (toggle : Bool) (n : Nat),
    (processLines toggle n lines).1 = emitAll toggle (validRecords lines) := by
  induction lines with
  | nil => intro toggle n; rfl
  | cons l rest ih =>
    intro toggle n
    cases l with
    | blank => simpa [processLines, validRecords] using ih toggle (n + 1)
    | malformed raw => simpa [processLines, validRecords] using ih toggle (n + 1)
    | valid d => simp [processLines, validRecords, emitAll, ih (!toggle) (n + 1)]

/-- One emitted record per valid record. -/
theorem emitAll_length (recs : List PreferenceRecord) : ∀ toggle,
    (emitAll toggle recs).length = recs.length := by
  induction recs with
  | nil => intro toggle; rfl
  | cons d rest ih => intro toggle; simp [emitAll, ih]

/-- validRecords distributes over append. -/
theorem validRecords_append (xs : List ParsedLine) : ∀ ys,
    validRecords (xs ++ ys) = validRecords xs ++ validRecords ys := by
  induction xs with
  | nil => intro ys; rfl
  | cons l rest ih =>
    intro ys
    cases l <;> simp [validRecords, ih]

/-- On a list of well-formed lines, every line yields a record and no warning. -/
theorem processLines_all_valid (xs : List ParsedLine)
    (hv : ∀ l ∈ xs, ∃ d, l = ParsedLine.valid d) : ∀ (toggle : Bool) (n : Nat),
    (validRecords xs).length = xs.length ∧ (processLines toggle n xs).2 = [] := by
  induction xs with
  | nil => intro toggle n; exact ⟨rfl, rfl⟩
  | cons l rest ih =>
    intro toggle n
    obtain ⟨d, rfl⟩ := hv l (List.mem_cons_self l rest)
    have ih' := ih (fun l hl => hv l (List.mem_cons_of_mem _ hl)) (!toggle) (n + 1)
    exact ⟨by simp [validRecords, ih'.1], by simp [processLines, ih'.2]⟩

/-- The loop splits over append: the tail runs with the toggle and line counter
    left by the head. -/
theorem processLines_append (xs : List ParsedLine) : ∀ ys (toggle : Bool) (n : Nat),
    processLines toggle n (xs ++ ys) =
      ((processLines toggle n xs).1 ++
         (processLines (toggleAfter toggle xs) (n + xs.length) ys).1,
       (processLines toggle n xs).2 ++
         (processLines (toggleAfter toggle xs) (n + xs.length) ys).2) := by
  induction xs with
  | nil => intro ys toggle n; simp [processLines, toggleAfter]
  | cons l rest ih =>
    intro ys toggle n
    have harith : n + 1 + rest.length = n + (rest.length + 1) := by omega
    cases l with
    | blank =>
      simp only [List.cons_append, processLines, toggleAfter, List.length_cons,
        List.append_eq]
      rw [ih ys toggle (n + 1), harith]
    | malformed raw =>
      simp only [List.cons_append, processLines, toggleAfter, List.length_cons,
        List.append_eq]
      rw [ih ys toggle (n + 1), harith]
    | valid d =>
      simp only [List.cons_append, processLines, toggleAfter, List.length_cons,
        List.append_eq]
      rw [ih ys (!toggle) (n + 1), harith]

/-- C7: a malformed line among well-formed ones is non-fatal: it yields no record
    but one warning carrying its 1-based line number and raw content, and the run
    emits exactly one record per valid line, in the valid lines' original order. -/
theorem skip_on_error (pre post : List ParsedLine) (raw : String)
    (h : ∀ l ∈ pre ++ post, ∃ d, l = ParsedLine.valid d) :
    (process_file (pre ++ ParsedLine.malformed raw :: post)).1 =
      emitAll true (validRecords (pre ++ post)) ∧
    (process_file (pre ++ ParsedLine.malformed raw :: post)).1.length =
      pre.length + post.length ∧
    (process_file (pre ++ ParsedLine.malformed raw :: post)).2 =
      [(pre.length + 1, raw)] := by
  have hpre : ∀ l ∈ pre, ∃ d, l = ParsedLine.valid d := by
    intro l hl; exact h l (List.mem_append_left _ hl)
  have hpost : ∀ l ∈ post, ∃ d, l = ParsedLine.valid d := by
    intro l hl; exact h l (List.mem_append_right _ hl)
  have hvpre := processLines_all_valid pre hpre
  have hvpost := processLines_all_valid post hpost
  refine ⟨?_, ?_, ?_⟩
  · rw [process_file, processLines_outputs]
    rw [validRecords_append, validRecords_append]
    have : validRecords (ParsedLine.malformed raw :: post) = validRecords post := rfl
    rw [this]
  · rw [process_file, processLines_outputs, emitAll_length]
    rw [validRecords_append]
    have : validRecords (ParsedLine.malformed raw :: post) = validRecords post := rfl
    rw [this]
    simp [(hvpre true 1).1, (hvpost true 1).1]
  · rw [process_file, processLines_append]
    simp only [processLines]
    rw [(hvpre true 1).2, (hvpost (toggleAfter true pre) (1 + pre.length + 1)).2]
    simp [Nat.add_comm]

/-- C7 witness: one malformed line between two valid ones yields two records and
    one warning, for line 2. -/
theorem skip_on_error_instance :
    (process_file [ParsedLine.valid emptyRec, ParsedLine.malformed "oops",
        ParsedLine.valid recNoSpan]).1 =
      emitAll true (validRecords [ParsedLine.valid emptyRec, ParsedLine.valid recNoSpan]) ∧
    (process_file [ParsedLine.valid emptyRec, ParsedLine.malformed "oops",
        ParsedLine.valid recNoSpan]).1.length = 2 ∧
    (process_file [ParsedLine.valid emptyRec, ParsedLine.malformed "oops",
        ParsedLine.valid recNoSpan]).2 = [(2, "oops")] := by
  have h := skip_on_error [ParsedLine.valid emptyRec] [ParsedLine.valid recNoSpan] "oops"
    (by intro l hl; simp at hl; rcases hl with h1 | h1 <;> exact ⟨_, h1⟩)
  simpa using h

/-- A pattern that occurs at the front of the empty list is empty. -/
theorem beginsWith_nil (pat : List Char) (h : beginsWith pat [] = true) : pat = [] := by
  cases pat with
  | nil => rfl
  | cons p ps => simp [beginsWith] at h

/-- A pattern at the front of a list is an actual prefix of it. -/
theorem beginsWith_eq_append (pat : List Char) : ∀ l, beginsWith pat l = true →
    l = pat ++ l.drop pat.length := by
  induction pat with
  | nil => intro l _; rfl
  | cons p ps ih =>
    intro l h
    cases l with
    | nil => simp [beginsWith] at h
    | cons c cs =>
      simp only [beginsWith, Bool.and_eq_true, beq_iff_eq] at h
      obtain ⟨rfl, h2⟩ := h
      simpa using ih cs h2

/-- splitFirst finds a genuine occurrence, and the leftmost one: the pattern does
    not occur at any position strictly before the split point. -/
theorem splitFirst_spec (pat : List Char) : ∀ (cs pre post : List Char),
    splitFirst pat cs = some (pre, post) →
    cs = pre ++ pat ++ post ∧
      ∀ k, k < pre.length → beginsWith pat (cs.drop k) = false := by
  intro cs
  induction cs with
  | nil =>
    intro pre post h
    by_cases hb : beginsWith pat [] = true
    · have hpat := beginsWith_nil pat hb
      rw [splitFirst, if_pos hb] at h
      simp only [Option.some.injEq, Prod.mk.injEq] at h
      obtain ⟨h1, h2⟩ := h
      subst h1; subst h2; subst hpat
      exact ⟨rfl, fun k hk => by simp at hk⟩
    · rw [splitFirst, if_neg hb] at h
      cases h
  | cons c cs ih =>
    intro pre post h
    by_cases hb : beginsWith pat (c :: cs) = true
    · rw [splitFirst, if_pos hb] at h
      simp only [Option.some.injEq, Prod.mk.injEq] at h
      obtain ⟨h1, h2⟩ := h
      subst h1; subst h2
      refine ⟨by simpa using beginsWith_eq_append pat (c :: cs) hb, ?_⟩
      intro k hk; simp at hk
    · rw [splitFirst, if_neg hb] at h
      cases h' : splitFirst pat cs with
      | none => rw [h'] at h; cases h
      | some pp =>
        obtain ⟨pre', post'⟩ := pp
        rw [h'] at h
        simp only [Option.some.injEq, Prod.mk.injEq] at h
        obtain ⟨h1, h2⟩ := h
        subst h1; subst h2
        obtain ⟨hdec, hmin⟩ := ih pre' post' h'
        refine ⟨by simpa using hdec, ?_⟩
        intro k hk
        cases k with
        | zero => simpa using (Bool.not_eq_true _).mp hb
        | succ j =>
          have hj : j < pre'.length := by simpa using hk
          simpa using hmin j hj

/-- C8: when the prompt holds no user-turn span, the instruction defaults to the
    empty string and the record is still emitted; when the search succeeds, the
    match starts at the first occurrence of the header literal and the captured
    group stops at the first terminator after it. -/
theorem missing_span_empty_instruction (data : PreferenceRecord) (toggle : Bool) :
    (extract_instruction (data.prompt.getD "") = none →
      (recordParts toggle data).instruction = "" ∧
      ∀ (rest : List ParsedLine) (n : Nat),
        (processLines toggle n (ParsedLine.valid data :: rest)).1 =
          outputEntry (recordParts toggle data) ::
            (processLines (!toggle) (n + 1) rest).1) ∧
    (∀ g, extract_instruction (data.prompt.getD "") = some g →
      ∃ pre rest mid post,
        (data.prompt.getD "").data = pre ++ headerPat ++ rest ∧
        rest = mid ++ eotPat ++ post ∧
        g.data = mid ∧
        (∀ k, k < pre.length →
          beginsWith headerPat (((data.prompt.getD "").data).drop k) = false) ∧
        (∀ k, k < mid.length → beginsWith eotPat (rest.drop k) = false)) := by
  constructor
  · intro h
    refine ⟨by simp [recordParts, h], fun rest n => rfl⟩
  · intro g hg
    unfold extract_instruction at hg
    cases h1 : splitFirst headerPat (data.prompt.getD "").data with
    | none => rw [h1] at hg; cases hg
    | some pr =>
      obtain ⟨pre0, rest0⟩ := pr
      rw [h1] at hg
      simp only [] at hg
      cases h2 : splitFirst eotPat rest0 with
      | none => rw [h2] at hg; cases hg
      | some mr =>
        obtain ⟨mid0, post0⟩ := mr
        rw [h2] at hg
        simp only [Option.some.injEq] at hg
        subst hg
        obtain ⟨hdec1, hmin1⟩ := splitFirst_spec headerPat _ _ _ h1
        obtain ⟨hdec2, hmin2⟩ := splitFirst_spec eotPat _ _ _ h2
        exact ⟨pre0, rest0, mid0, post0, hdec1, hdec2, rfl, hmin1, hmin2⟩

/-- C8 witness: a span-free prompt gives an empty instruction; a prompt with a
    span decomposes around its first occurrence with the group before the first
    terminator. -/
theorem missing_span_instance :
    (recordParts true recNoSpan).instruction = "" ∧
    (∃ pre rest mid post,
      (recWithSpan.prompt.getD "").data = pre ++ headerPat ++ rest ∧
      rest = mid ++ eotPat ++ post ∧
      ("Hi" : String).data = mid ∧
      (∀ k, k < pre.length →
        beginsWith headerPat (((recWithSpan.prompt.getD "").data).drop k) = false) ∧
      (∀ k, k < mid.length → beginsWith eotPat (rest.drop k) = false)) := by
  constructor
  · exact ((missing_span_empty_instruction recNoSpan true).1 (by decide)).1
  · exact (missing_span_empty_instruction recWithSpan true).2 "Hi" (by decide)

/-- Dropping a satisfied prefix twice is the same as dropping it once. -/
theorem dropWhile_self (p : Char → Bool) : ∀ l : List Char,
    (l.dropWhile p).dropWhile p = l.dropWhile p := by
  intro l
  induction l with
  | nil => rfl
  | cons c cs ih =>
    cases hp : p c with
    | true => simp [List.dropWhile_cons, hp, ih]
    | false => simp [List.dropWhile_cons, hp]

/-- The head surviving a dropWhile fails the predicate. -/
theorem head?_dropWhile (p : Char → Bool) : ∀ (l : List Char) (c : Char),
    (l.dropWhile p).head? = some c → p c = false := by
  intro l
  induction l with
  | nil => intro c h; simp at h
  | cons a as ih =>
    intro c h
    cases hp : p a with
    | true => simp only [List.dropWhile_cons, hp, if_true] at h; exact ih c h
    | false =>
      simp only [List.dropWhile_cons, hp] at h
      simp at h
      obtain ⟨rfl, -⟩ := h
      exact hp

/-- A list whose head fails the predicate is untouched by dropWhile. -/
theorem dropWhile_eq_self (p : Char → Bool) (l : List Char)
    (h : ∀ c, l.head? = some c → p c = false) : l.dropWhile p = l := by
  cases l with
  | nil => rfl
  | cons a as => simp [List.dropWhile_cons, h a rfl]

/-- dropWhile keeps the last element of the survivors. -/
theorem getLast?_dropWhile (p : Char → Bool) : ∀ (l : List Char) (c : Char),
    (l.dropWhile p).getLast? = some c → l.getLast? = some c := by
  intro l
  induction l with
  | nil => intro c h; simp at h
  | cons a as ih =>
    intro c h
    cases hp : p a with
    | false => simp only [List.dropWhile_cons, hp] at h; simpa using h
    | true =>
      simp only [List.dropWhile_cons, hp, if_true] at h
      cases as with
      | nil => simp [List.dropWhile] at h
      | cons b bs =>
        rw [List.getLast?_cons_cons]
        exact ih c h

/-- Trimming whitespace from both ends is idempotent. -/
theorem stripChars_idem (cs : List Char) : stripChars (stripChars cs) = stripChars cs := by
  unfold stripChars
  set p := isPyWhite with hp
  set B := cs.dropWhile p with hB
  set C := B.reverse.dropWhile p with hC
  have hDA : C.reverse.dropWhile p = C.reverse := by
    apply dropWhile_eq_self
    intro c hc
    rw [List.head?_reverse] at hc
    rw [hC] at hc
    have h2 := getLast?_dropWhile p B.reverse c hc
    rw [List.getLast?_reverse] at h2
    rw [hB] at h2
    exact head?_dropWhile p cs c h2
  rw [hDA, List.reverse_reverse, hC, dropWhile_self]

/-- C6 counterexample: the template stripper is not idempotent. Removing the two
    markers of this input splices a fresh marker together, which only a second
    pass removes. -/
theorem remove_templates_not_idempotent :
    remove_templates (remove_templates "<<|x|>|y|>") ≠ remove_templates "<<|x|>|y|>" := by
  decide

/-- C6 amended: the template stripper is idempotent on every input whose stripped
    output contains no marker occurrence (one whole-string substitution pass on
    the output changes nothing); a second application can differ only by removing
    markers newly spliced together by the first removal. -/
theorem remove_templates_idempotent_of_marker_free (s : String)
    (h : removeMarkers (remove_templates s).data = (remove_templates s).data) :
    remove_templates (remove_templates s) = remove_templates s := by
  have h' : removeMarkers (stripChars (removeMarkers s.data)) =
      stripChars (removeMarkers s.data) := h
  show String.mk (stripChars (removeMarkers (stripChars (removeMarkers s.data)))) =
    String.mk (stripChars (removeMarkers s.data))
  rw [h', stripChars_idem]

/-- C6 witness: on a marker-free stripped output, a second strip is a no-op. -/
theorem remove_templates_idempotent_instance :
    remove_templates (remove_templates "a <|x|> b") = remove_templates "a <|x|> b" :=
  remove_templates_idempotent_of_marker_free "a <|x|> b" (by decide)

/-- The accumulated results list is the indicator of each compared score pair, in
    batch order. -/
theorem runBatches_results (batches : List (List ℚ × List ℚ)) :
    (runBatches batches).1 =
      (allPairs batches).map (fun p => if p.1 > p.2 then 1 else 0) := by
  induction batches with
  | nil => rfl
  | cons b rest ih => simp [runBatches, allPairs, mkResults, ih]

/-- Summing the 0/1 indicators counts the pairs scored correctly. -/
theorem sum_indicators (l : List (ℚ × ℚ)) :
    (l.map (fun p => if p.1 > p.2 then (1 : Nat) else 0)).sum =
      l.countP (fun p => decide (p.1 > p.2)) := by
  induction l with
  | nil => rfl
  | cons a as ih =>
    by_cases h : a.1 > a.2 <;> simp [List.countP_cons, ih, h, Nat.add_comm]

/-- C4: the reported accuracy is the number of pairs whose chosen score strictly
    exceeds the rejected score, divided by the total number of pairs, the two
    sides matched by zip order within each batch; on scores chosen 0.9, 0.1
    against rejected 0.2, 0.8 it is one half. -/
theorem benchmark_accuracy :
    (∀ batches : List (List ℚ × List ℚ), allPairs batches ≠ [] →
      accuracy (runBatches batches).1 =
        Except.ok ((((allPairs batches).countP (fun p => decide (p.1 > p.2))) : ℚ) /
          ((allPairs batches).length : ℚ))) ∧
    accuracy (runBatches [([9/10, 1/10], [2/10, 8/10])]).1 = Except.ok (1/2) := by
  constructor
  · intro batches hne
    rw [runBatches_results]
    unfold accuracy
    rw [List.length_map, sum_indicators]
    rw [if_neg (by simpa [List.length_eq_zero] using hne)]
  · norm_num [accuracy, runBatches, mkResults, List.zip_cons_cons]

/-- C4 witness: the general formula applied to the single example batch. -/
theorem benchmark_accuracy_instance :
    accuracy (runBatches [([9/10, 1/10], [2/10, 8/10])]).1 =
      Except.ok ((((allPairs [([9/10, 1/10], [2/10, 8/10])]).countP
          (fun p => decide (p.1 > p.2))) : ℚ) /
        ((allPairs [([9/10, 1/10], [2/10, 8/10])]).length : ℚ)) :=
  benchmark_accuracy.1 [([9/10, 1/10], [2/10, 8/10])]
    (by simp [allPairs, List.zip_cons_cons])

/-- C5: the save_all file does not hold one pair of scalar scores per line; the
    loop writes the whole scores_chosen and scores_rejected lists on every line,
    once per pair. On the two-pair example both emitted lines carry both full
    lists. -/
theorem save_all_repeats_full_lists :
    saveAllLines [9/10, 1/10] [2/10, 8/10] =
      [⟨[9/10, 1/10], [2/10, 8/10]⟩, ⟨[9/10, 1/10], [2/10, 8/10]⟩] := by
  simp [saveAllLines, List.zip_cons_cons]

/-- C9: with zero scored pairs the accuracy computation divides by zero, so the
    run fails before writing any file; accuracy is returned exactly when at
    least one pair was scored. -/
theorem accuracy_requires_nonempty :
    (∀ (score_rejected : List ℚ) (model tok : String) (ct : Option String)
        (sa : Bool) (sc sr : List ℚ),
      compileScores (mkResults [] score_rejected) model tok ct sa sc sr =
        Except.error "ZeroDivisionError") ∧
    (∀ results : List Nat, results ≠ [] →
      accuracy results = Except.ok ((results.sum : ℚ) / (results.length : ℚ))) := by
  constructor
  · intro srj m t ct sa sc sr; rfl
  · intro results h
    unfold accuracy
    rw [if_neg (by simpa [List.length_eq_zero] using h)]

/-- C9 witness: a single scored pair yields a defined accuracy. -/
theorem accuracy_requires_nonempty_instance :
    accuracy [1] = Except.ok ((([1] : List Nat).sum : ℚ) / (([1] : List Nat).length : ℚ)) :=
  accuracy_requires_nonempty.2 [1] (by simp)

end DistilledJudge
